import Mathlib

/-!
Shallow embedding of the windowed batch pH-oscillation detector from
`custom_components/ph_control/sensor.py` (class `PHControlSensor`).

Modelling conventions:
* A reading is a pair `(timestamp, value)`, as in the Python tuples
  `(timestamp, ph_value)`.  Timestamps are rationals measured in seconds
  (the source computes durations with `datetime.total_seconds()`), and pH
  values are rationals (the source uses binary floats; the claims under
  study concern exact comparisons and arithmetic identities, which the
  rational model renders exactly).
* The recorder/database fetch in `update_data` is abstracted as the list of
  readings it returns, ordered by timestamp as the `ORDER BY` clause does.
* Python `max(seq, key=...)`/`min(seq, key=...)` return the first element
  attaining the extreme key; `pymaxBy`/`pyminBy` reproduce that.
* Python `sorted(..., key=lambda x: x[0])` is a stable sort by timestamp;
  `sortByTime` is Mathlib's (stable) insertion sort by the same key.
-/

namespace PhControl

/-- A reading `(timestamp, value)`, as stored in `self._state_history`. -/
abbrev Reading : Type := ℚ × ℚ

/-- The configuration attributes of `PHControlSensor.__init__`: `setpoint`,
`min_amplitude`, `noise_filter`, `min_duration`.  (`min_duration` is an `int`
in the source and coerces into the float comparisons; `time_window` only
shapes the external history query and is omitted.) -/
structure Config where
  setpoint : ℚ
  min_amplitude : ℚ
  noise_filter : ℚ
  min_duration : ℚ
deriving DecidableEq

/-- The oscillation record dict built in `_match_oscillations`. -/
structure Oscillation where
  peak_time : ℚ
  peak_value : ℚ
  trough_time : ℚ
  trough_value : ℚ
  amplitude : ℚ
  duration : ℚ
deriving DecidableEq

/-- The detection state written by `_detect_oscillations`:
`self._peaks`, `self._troughs`, `self._oscillations`. -/
structure DetectResult where
  peaks : List Reading
  troughs : List Reading
  oscillations : List Oscillation
deriving DecidableEq

/-- Python `max(segment, key=lambda x: x[1])`: the first element with the
largest value (second component). -/
def pymaxBy : List Reading → Reading
  | [] => (0, 0)
  | x :: xs => xs.foldl (fun acc y => if acc.2 < y.2 then y else acc) x

/-- Python `min(segment, key=lambda x: x[1])`: the first element with the
smallest value. -/
def pyminBy : List Reading → Reading
  | [] => (0, 0)
  | x :: xs => xs.foldl (fun acc y => if y.2 < acc.2 then y else acc) x

/-- The `(segment[-1][0] - segment[0][0]).total_seconds()` duration of a
segment. -/
def segDuration (segment : List Reading) : ℚ :=
  (segment.getLastD (0, 0)).1 - (segment.headD (0, 0)).1

/-- Translation of `PHControlSensor._process_peak_segment`: returns the list
of peaks appended to `self._peaks` (empty or a singleton). -/
def processPeakSegment (cfg : Config) (segment : List Reading) : List Reading :=
  if segment.length < 2 then []
  else
    let peakValue := pymaxBy segment
    if cfg.min_amplitude < peakValue.2 - cfg.setpoint then
      if cfg.min_duration ≤ segDuration segment then [peakValue] else []
    else []

/-- Translation of `PHControlSensor._process_trough_segment`. -/
def processTroughSegment (cfg : Config) (segment : List Reading) : List Reading :=
  if segment.length < 2 then []
  else
    let troughValue := pyminBy segment
    if cfg.min_amplitude < cfg.setpoint - troughValue.2 then
      if cfg.min_duration ≤ segDuration segment then [troughValue] else []
    else []

/-- Comparison by timestamp, the sort key `lambda x: x[0]`. -/
def timeLE (a b : Reading) : Prop := a.1 ≤ b.1

instance : DecidableRel timeLE := fun a b => inferInstanceAs (Decidable (a.1 ≤ b.1))

instance : IsTotal Reading timeLE := ⟨fun a b => le_total a.1 b.1⟩

instance : IsTrans Reading timeLE := ⟨fun _ _ _ h1 h2 => le_trans h1 h2⟩

/-- Python `sorted(l, key=lambda x: x[0])` (stable). -/
def sortByTime (l : List Reading) : List Reading := List.insertionSort timeLE l

/-- The oscillation dict appended in `_match_oscillations`. -/
def mkOsc (peak trough : Reading) : Oscillation :=
  { peak_time := peak.1
    peak_value := peak.2
    trough_time := trough.1
    trough_value := trough.2
    amplitude := peak.2 - trough.2
    duration := trough.1 - peak.1 }

/-- Translation of `PHControlSensor._match_oscillations`.  For each peak (in
sorted order) the first strictly later trough is taken; the pair is recorded
when `amplitude > min_amplitude`. -/
def matchOscillations (minAmp : ℚ) (peaks troughs : List Reading) : List Oscillation :=
  match peaks, troughs with
  | [], _ => []
  | _, [] => []
  | _ :: _, _ :: _ =>
    let sortedPeaks := sortByTime peaks
    let sortedTroughs := sortByTime troughs
    sortedPeaks.filterMap (fun peak =>
      match (sortedTroughs.filter (fun t => decide (peak.1 < t.1))).head? with
      | none => none
      | some nextTrough =>
        if minAmp < peak.2 - nextTrough.2 then some (mkOsc peak nextTrough) else none)

/-- The loop of `_detect_oscillations`: walks the history carrying the side
flag `self._above_setpoint`, the `current_segment`, and the accumulated
peak/trough lists; on a setpoint crossing the finished segment is processed,
and the final segment is processed when the list is exhausted. -/
def detectAux (cfg : Config) :
    List Reading → Bool → List Reading → List Reading → List Reading →
      List Reading × List Reading
  | [], above, seg, pk, tr =>
    match seg with
    | [] => (pk, tr)
    | _ :: _ =>
      if above then (pk ++ processPeakSegment cfg seg, tr)
      else (pk, tr ++ processTroughSegment cfg seg)
  | (t, v) :: rest, above, seg, pk, tr =>
    let isAbove := decide (cfg.setpoint < v)
    if isAbove = above then
      detectAux cfg rest above (seg ++ [(t, v)]) pk tr
    else
      match seg with
      | [] => detectAux cfg rest isAbove [(t, v)] pk tr
      | _ :: _ =>
        if above then
          detectAux cfg rest isAbove [(t, v)] (pk ++ processPeakSegment cfg seg) tr
        else
          detectAux cfg rest isAbove [(t, v)] pk (tr ++ processTroughSegment cfg seg)

/-- Translation of `PHControlSensor._detect_oscillations`: with fewer than 5
readings everything stays empty; otherwise the side flag starts from the
first reading, the loop runs, and `_match_oscillations` pairs the results.
The stored `noise_filter` attribute is never consulted here, exactly as in
the source. -/
def detectOscillations (cfg : Config) (history : List Reading) : DetectResult :=
  if history.length < 5 then ⟨[], [], []⟩
  else
    let pt := detectAux cfg history (decide (cfg.setpoint < (history.headD (0, 0)).2)) [] [] []
    ⟨pt.1, pt.2, matchOscillations cfg.min_amplitude pt.1 pt.2⟩

/-- Exact model of Python `round(x, 2)` on rationals: round half to even at
two decimal places (the source applies it to binary floats; on the rational
model the rounding is exact). -/
def round2 (q : ℚ) : ℚ :=
  let x := q * 100
  let f : ℤ := Int.floor x
  let r := x - f
  let n : ℤ :=
    if r < 1 / 2 then f
    else if 1 / 2 < r then f + 1
    else if f % 2 = 0 then f else f + 1
  (n : ℚ) / 100

/-- Python `max(amplitudes)` on a nonempty list (0 on the empty list, which
the source never reaches). -/
def pymax : List ℚ → ℚ
  | [] => 0
  | x :: xs => xs.foldl (fun a b => if a < b then b else a) x

/-- The attribute dict assembled by `_calculate_metrics`.  `last_peak` and
`last_trough` are the `.isoformat()` timestamps, kept here as the raw
timestamps; they are absent (`none`) when no recent oscillation exists. -/
structure Attributes where
  oscillations : ℕ
  average_amplitude : ℚ
  max_amplitude : ℚ
  last_amplitude : ℚ
  last_peak : Option ℚ
  last_trough : Option ℚ
  trend : String
  status : String
deriving DecidableEq

/-- The `recent_oscillations` filter of `_calculate_metrics`: oscillations
whose peak is at most 24 hours before `now`. -/
def recentOf (now : ℚ) (oscs : List Oscillation) : List Oscillation :=
  oscs.filter (fun osc => decide ((now - osc.peak_time) / 3600 ≤ 24))

/-- The trend/status block of `_calculate_metrics` (the body of the
`len(recent_oscillations) > 1` branch): split the recent oscillations at the
midpoint index, compare half averages, guard the division by
`first_avg > 0`, and classify. -/
def trendPair (recent : List Oscillation) : String × String :=
  if 1 < recent.length then
    let halfIdx := recent.length / 2
    let firstHalf := recent.take halfIdx
    let secondHalf := recent.drop halfIdx
    let firstAvg := ((firstHalf.map (fun osc => osc.amplitude)).sum) / (firstHalf.length : ℚ)
    let secondAvg := ((secondHalf.map (fun osc => osc.amplitude)).sum) / (secondHalf.length : ℚ)
    let percentChange := if 0 < firstAvg then ((secondAvg - firstAvg) / firstAvg) * 100 else 0
    if 15 < percentChange then ("rapidly_increasing", "low")
    else if 5 < percentChange then ("increasing", "decreasing")
    else if percentChange < -5 then ("decreasing", "good")
    else ("stable", "normal")
  else ("unknown", "unknown")

/-- Translation of `PHControlSensor._calculate_metrics` as a function of the
current time and the detected oscillation list. -/
def calculateMetrics (now : ℚ) (oscs : List Oscillation) : Attributes :=
  let recent := recentOf now oscs
  match recent with
  | [] =>
    { oscillations := recent.length
      average_amplitude := 0
      max_amplitude := 0
      last_amplitude := 0
      last_peak := none
      last_trough := none
      trend := "unknown"
      status := "unknown" }
  | _ :: _ =>
    let amplitudes := recent.map (fun osc => osc.amplitude)
    let lastOsc := recent.getLastD (mkOsc (0, 0) (0, 0))
    let ts := trendPair recent
    { oscillations := recent.length
      average_amplitude := round2 (amplitudes.sum / (amplitudes.length : ℚ))
      max_amplitude := round2 (pymax amplitudes)
      last_amplitude := round2 lastOsc.amplitude
      last_peak := some lastOsc.peak_time
      last_trough := some lastOsc.trough_time
      trend := ts.1
      status := ts.2 }

/-- The mutable sensor entity state touched by `update_data`. -/
structure Sensor where
  state : Option String
  attributes : Attributes
  peaks : List Reading
  troughs : List Reading
  oscillations : List Oscillation
deriving DecidableEq

/-- Translation of `PHControlSensor.update_data`, with the recorder query
abstracted as the `history` list it returns (ordered by timestamp, parse
failures already dropped).  On an empty history the state becomes
`"unknown"` and the method returns at once; otherwise detection and metric
computation run and the state is set to the trend attribute. -/
def updateData (cfg : Config) (now : ℚ) (history : List Reading) (s : Sensor) : Sensor :=
  if history = [] then { s with state := some "unknown" }
  else
    let r := detectOscillations cfg history
    let attrs := calculateMetrics now r.oscillations
    { state := some attrs.trend
      attributes := attrs
      peaks := r.peaks
      troughs := r.troughs
      oscillations := r.oscillations }

/-! Spec-side vocabulary.  The definitions below follow the wording of the
specification (segment partition, acceptance conditions, trend classifier)
and are compared against the source translation above. -/

/-- The side of a reading relative to the setpoint (`ph_value > setpoint`). -/
def sideOf (sp : ℚ) (seg : List Reading) : Bool :=
  decide (sp < (seg.headD (0, 0)).2)

/-- Maximal contiguous runs of readings on one side of the setpoint
(auxiliary: `seg` is the nonempty run under construction, `above` its side). -/
def chunksAux (sp : ℚ) : List Reading → Bool → List Reading → List (List Reading)
  | [], _, seg => [seg]
  | (t, v) :: rest, above, seg =>
    let isAbove := decide (sp < v)
    if isAbove = above then chunksAux sp rest above (seg ++ [(t, v)])
    else seg :: chunksAux sp rest isAbove [(t, v)]

/-- The partition of an ordered reading window into contiguous
above-setpoint and below-setpoint segments. -/
def chunks (sp : ℚ) : List Reading → List (List Reading)
  | [] => []
  | h :: rest => chunksAux sp rest (decide (sp < h.2)) [h]

/-- Spec wording for peak acceptance, as the claim states it: the maximum of
an above segment is a peak exactly when `value - setpoint > min_amplitude`
and the segment duration is at least `min_duration`. -/
def specPeakOfNaive (cfg : Config) (seg : List Reading) : Option Reading :=
  if sideOf cfg.setpoint seg = true
      ∧ cfg.min_amplitude < (pymaxBy seg).2 - cfg.setpoint
      ∧ cfg.min_duration ≤ segDuration seg
  then some (pymaxBy seg) else none

/-- Amended peak acceptance: as `specPeakOfNaive`, plus the requirement that
the segment contain at least two readings (the source's `len(segment) < 2`
guard, which matters only when `min_duration ≤ 0`). -/
def specPeakOf (cfg : Config) (seg : List Reading) : Option Reading :=
  if sideOf cfg.setpoint seg = true
      ∧ 2 ≤ seg.length
      ∧ cfg.min_amplitude < (pymaxBy seg).2 - cfg.setpoint
      ∧ cfg.min_duration ≤ segDuration seg
  then some (pymaxBy seg) else none

/-- Amended trough acceptance, symmetric to `specPeakOf`. -/
def specTroughOf (cfg : Config) (seg : List Reading) : Option Reading :=
  if sideOf cfg.setpoint seg = false
      ∧ 2 ≤ seg.length
      ∧ cfg.min_amplitude < cfg.setpoint - (pyminBy seg).2
      ∧ cfg.min_duration ≤ segDuration seg
  then some (pyminBy seg) else none

/-- The peaks predicted by the claim wording over the segment partition. -/
def specPeaksNaive (cfg : Config) (history : List Reading) : List Reading :=
  (chunks cfg.setpoint history).filterMap (specPeakOfNaive cfg)

/-- The peaks predicted by the amended wording. -/
def specPeaks (cfg : Config) (history : List Reading) : List Reading :=
  (chunks cfg.setpoint history).filterMap (specPeakOf cfg)

/-- The troughs predicted by the amended wording. -/
def specTroughs (cfg : Config) (history : List Reading) : List Reading :=
  (chunks cfg.setpoint history).filterMap (specTroughOf cfg)

/-- Peak contributions of a chunk list, in the order the detection loop
appends them. -/
def peaksOfChunks (cfg : Config) : List (List Reading) → List Reading
  | [] => []
  | c :: L =>
    (if sideOf cfg.setpoint c = true then processPeakSegment cfg c else [])
      ++ peaksOfChunks cfg L

/-- Trough contributions of a chunk list. -/
def troughsOfChunks (cfg : Config) : List (List Reading) → List Reading
  | [] => []
  | c :: L =>
    (if sideOf cfg.setpoint c = false then processTroughSegment cfg c else [])
      ++ troughsOfChunks cfg L

/-- Whether a peak gets an oscillation in `_match_oscillations`: some trough
is strictly later, and the amplitude against the earliest such trough
exceeds `min_amplitude`. -/
def peakAccept (minAmp : ℚ) (troughs : List Reading) (p : Reading) : Bool :=
  match ((sortByTime troughs).filter (fun t => decide (p.1 < t.1))).head? with
  | none => false
  | some nextTrough => decide (minAmp < p.2 - nextTrough.2)

/-- Every consecutive delta of the reading sequence is strictly below the
noise filter threshold. -/
def allDeltasBelow (nf : ℚ) : List Reading → Bool
  | [] => true
  | [_] => true
  | x :: y :: rest => decide (|y.2 - x.2| < nf) && allDeltasBelow nf (y :: rest)

/-- Spec wording: `t` is the earliest trough whose timestamp is strictly
later than the peak `p`. -/
def isEarliestLaterTrough (troughs : List Reading) (p t : Reading) : Prop :=
  t ∈ troughs ∧ p.1 < t.1 ∧ ∀ u ∈ troughs, p.1 < u.1 → t.1 ≤ u.1

/-- Spec wording of the trend/status classifier as a pure function of the
chronologically ordered amplitude list: split at the midpoint index, compare
half averages via `percent_change` (0 when the first-half average is zero),
and classify in order. -/
def specTrendStatus (amps : List ℚ) : String × String :=
  let halfIdx := amps.length / 2
  let firstHalf := amps.take halfIdx
  let secondHalf := amps.drop halfIdx
  let firstAvg := firstHalf.sum / (firstHalf.length : ℚ)
  let secondAvg := secondHalf.sum / (secondHalf.length : ℚ)
  let percentChange := if firstAvg = 0 then 0 else (secondAvg - firstAvg) / firstAvg * 100
  if 15 < percentChange then ("rapidly_increasing", "low")
  else if 5 < percentChange then ("increasing", "decreasing")
  else if percentChange < -5 then ("decreasing", "good")
  else ("stable", "normal")

/-! Concrete instances used by the witnesses and counterexamples. -/

/-- Configuration with `min_duration = 0` (the config flow imposes no lower
bound on `min_duration`): setpoint 7, `min_amplitude` 0, `noise_filter`
1/20. -/
def cfgZeroDur : Config := ⟨7, 0, 1 / 20, 0⟩

/-- A five-reading window whose first segment is the single reading
`(0, 8)`, one unit above the setpoint. -/
def histSingleton : List Reading := [(0, 8), (1, 6), (2, 6), (3, 6), (4, 6)]

/-- Configuration in scaled hundredths: setpoint 7.00, `min_amplitude`
0.05, `noise_filter` 0.10, `min_duration` 10 s. -/
def cfgDrift : Config := ⟨700, 5, 10, 10⟩

/-- A slow drift: every consecutive delta is 0.09 (below the 0.10 noise
filter), yet the signal climbs 0.10 above the setpoint and then sinks 0.17
below it. -/
def histDrift : List Reading :=
  [(0, 701), (10, 710), (20, 701), (30, 692), (40, 683)]

/-- Configuration for the trough-before-peak and oscillation examples:
setpoint 7, `min_amplitude` 1, `min_duration` 5. -/
def cfgBasic : Config := ⟨7, 1, 1 / 20, 5⟩

/-- A window with an accepted trough (at time 0) strictly before an accepted
peak (at time 20) and no other extrema. -/
def histTroughFirst : List Reading := [(0, 5), (10, 5), (20, 9), (30, 9), (40, 9)]

/-- A window with an accepted peak (at time 0) followed by an accepted
trough (at time 20). -/
def histPeakFirst : List Reading := [(0, 9), (10, 9), (20, 5), (30, 5), (40, 5)]

/-- A four-reading window with a large, long setpoint crossing. -/
def histFour : List Reading := [(0, 9), (100, 9), (200, 5), (300, 5)]

/-- Six oscillations with amplitudes 1, 1, 1, 3, 3, 3, peak times 0..5. -/
def sixOscs : List Oscillation :=
  [⟨0, 8, 0, 7, 1, 0⟩, ⟨1, 8, 1, 7, 1, 0⟩, ⟨2, 8, 2, 7, 1, 0⟩,
   ⟨3, 10, 3, 7, 3, 0⟩, ⟨4, 10, 4, 7, 3, 0⟩, ⟨5, 10, 5, 7, 3, 0⟩]

/-- Stale attributes from a previous analysis cycle, with nonzero
amplitude metrics. -/
def staleAttrs : Attributes :=
  { oscillations := 3
    average_amplitude := 5
    max_amplitude := 5
    last_amplitude := 5
    last_peak := some 100
    last_trough := some 200
    trend := "stable"
    status := "normal" }

/-- A sensor carrying the stale attributes from a previous cycle. -/
def staleSensor : Sensor := ⟨some "stable", staleAttrs, [], [], []⟩

/-! Helper lemmas shared by the claim theorems. -/

/-- Any oscillation produced by `_match_oscillations` passed its amplitude
guard, so its amplitude strictly exceeds `min_amplitude`. -/
theorem mem_matchOscillations_amp {minAmp : ℚ} {pk tr : List Reading} {o : Oscillation}
    (h : o ∈ matchOscillations minAmp pk tr) : minAmp < o.amplitude := by
  match pk, tr with
  | [], _ => simp [matchOscillations] at h
  | _ :: _, [] => simp [matchOscillations] at h
  | p :: ps, t :: ts =>
    simp only [matchOscillations, List.mem_filterMap] at h
    obtain ⟨a, -, hfa⟩ := h
    split at hfa
    · simp at hfa
    · split at hfa
      · rename_i hcond
        cases Option.some.inj hfa
        simpa [mkOsc] using hcond
      · simp at hfa

/-- Concrete evaluation: the peak-then-trough window yields exactly one
oscillation. -/
theorem detect_histPeakFirst_eval :
    detectOscillations cfgBasic histPeakFirst =
      ⟨[(0, 9)], [(20, 5)], [⟨0, 9, 20, 5, 4, 20⟩]⟩ := by
  norm_num [detectOscillations, detectAux, processPeakSegment, processTroughSegment,
    pymaxBy, pyminBy, segDuration, matchOscillations, sortByTime, timeLE, mkOsc,
    cfgBasic, histPeakFirst, List.filterMap_cons]

/-! Claim theorems. -/

/-- C10: with fewer than 5 readings in the window, `_detect_oscillations`
leaves the peak, trough, and oscillation lists empty, regardless of the
readings' values. -/
theorem phC10 (cfg : Config) (history : List Reading) (h : history.length < 5) :
    detectOscillations cfg history = ⟨[], [], []⟩ := by
  simp [detectOscillations, h]

/-- Witness for C10: a four-reading window with a large, long setpoint
crossing still produces no extremum and no oscillation. -/
theorem phC10_witness :
    histFour.length < 5 ∧ detectOscillations cfgBasic histFour = ⟨[], [], []⟩ :=
  ⟨by norm_num [histFour], phC10 cfgBasic histFour (by norm_num [histFour])⟩

/-- C5 (amended): on an empty historical window `update_data` sets the state
to "unknown" but returns before touching the attributes, so the metric
attributes of the previous cycle are retained unchanged. -/
theorem phC5 (cfg : Config) (now : ℚ) (s : Sensor) :
    (updateData cfg now [] s).state = some "unknown" ∧
      (updateData cfg now [] s).attributes = s.attributes := by
  simp [updateData]

/-- Counterexample for C5 as stated: after an empty window the state is
"unknown" but `average_amplitude` and `max_amplitude` keep their stale
value 5 instead of being reset to 0. -/
theorem phC5_cex :
    (updateData cfgBasic 0 [] staleSensor).state = some "unknown" ∧
      (updateData cfgBasic 0 [] staleSensor).attributes.average_amplitude = 5 ∧
      (updateData cfgBasic 0 [] staleSensor).attributes.max_amplitude = 5 ∧
      ¬(updateData cfgBasic 0 [] staleSensor).attributes.average_amplitude = 0 := by
  norm_num [updateData, staleSensor, staleAttrs]

/-- C8: with fewer than 2 oscillations in the 24-hour horizon the trend and
status attributes are "unknown"; with zero oscillations the three amplitude
metrics are additionally 0. -/
theorem phC8 (now : ℚ) (oscs : List Oscillation) :
    ((recentOf now oscs).length < 2 →
      (calculateMetrics now oscs).trend = "unknown" ∧
        (calculateMetrics now oscs).status = "unknown") ∧
    ((recentOf now oscs).length = 0 →
      (calculateMetrics now oscs).average_amplitude = 0 ∧
        (calculateMetrics now oscs).max_amplitude = 0 ∧
        (calculateMetrics now oscs).last_amplitude = 0 ∧
        (calculateMetrics now oscs).trend = "unknown" ∧
        (calculateMetrics now oscs).status = "unknown") := by
  rcases hr : recentOf now oscs with _ | ⟨a, l⟩
  · constructor
    · intro _
      simp [calculateMetrics, hr]
    · intro _
      simp [calculateMetrics, hr]
  · constructor
    · intro hlen
      have hl : l = [] := by
        cases l with
        | nil => rfl
        | cons b m =>
          simp only [List.length_cons] at hlen
          omega
      subst hl
      simp [calculateMetrics, trendPair, hr]
    · intro hlen
      simp at hlen


/-- Witness for C8: with no oscillations at all, the trend and status are
"unknown" and all three amplitude metrics are 0. -/
theorem phC8_witness :
    (calculateMetrics 0 []).trend = "unknown" ∧
      (calculateMetrics 0 []).status = "unknown" ∧
      (calculateMetrics 0 []).average_amplitude = 0 ∧
      (calculateMetrics 0 []).max_amplitude = 0 ∧
      (calculateMetrics 0 []).last_amplitude = 0 := by
  have hlen : (recentOf 0 ([] : List Oscillation)).length = 0 := by norm_num [recentOf]
  have h := phC8 0 []
  have h1 := h.1 (by rw [hlen]; norm_num)
  have h2 := h.2 hlen
  exact ⟨h1.1, h1.2, h2.1, h2.2.1, h2.2.2.1⟩

/-- C7: every oscillation recorded by the detector has amplitude at least
`min_amplitude` (in fact strictly greater). -/
theorem phC7 (cfg : Config) (history : List Reading) (o : Oscillation)
    (h : o ∈ (detectOscillations cfg history).oscillations) :
    cfg.min_amplitude ≤ o.amplitude := by
  by_cases h5 : history.length < 5
  · simp [detectOscillations, h5] at h
  · simp only [detectOscillations, if_neg h5] at h
    exact le_of_lt (mem_matchOscillations_amp h)

/-- Witness for C7: the single oscillation of the peak-then-trough window
has amplitude 4, at least the configured `min_amplitude` of 1. -/
theorem phC7_witness :
    (⟨0, 9, 20, 5, 4, 20⟩ : Oscillation) ∈
        (detectOscillations cfgBasic histPeakFirst).oscillations ∧
      cfgBasic.min_amplitude ≤ (⟨0, 9, 20, 5, 4, 20⟩ : Oscillation).amplitude := by
  have hm : (⟨0, 9, 20, 5, 4, 20⟩ : Oscillation) ∈
      (detectOscillations cfgBasic histPeakFirst).oscillations := by
    rw [detect_histPeakFirst_eval]
    simp
  exact ⟨hm, phC7 cfgBasic histPeakFirst _ hm⟩

/-- Peak-segment processing reads only `setpoint`, `min_amplitude` and
`min_duration`, never `noise_filter`. -/
theorem processPeakSegment_noise (s m n n' d : ℚ) (seg : List Reading) :
    processPeakSegment ⟨s, m, n, d⟩ seg = processPeakSegment ⟨s, m, n', d⟩ seg := rfl

/-- Trough-segment processing likewise never reads `noise_filter`. -/
theorem processTroughSegment_noise (s m n n' d : ℚ) (seg : List Reading) :
    processTroughSegment ⟨s, m, n, d⟩ seg = processTroughSegment ⟨s, m, n', d⟩ seg := rfl

/-- The detection loop is independent of the `noise_filter` attribute. -/
theorem detectAux_noise (s m n n' d : ℚ) :
    ∀ (l : List Reading) (above : Bool) (seg pk tr : List Reading),
      detectAux ⟨s, m, n, d⟩ l above seg pk tr = detectAux ⟨s, m, n', d⟩ l above seg pk tr := by
  intro l
  induction l with
  | nil => intro above seg pk tr; rfl
  | cons x rest ih =>
    intro above seg pk tr
    obtain ⟨t, v⟩ := x
    simp only [detectAux]
    by_cases hab : decide (s < v) = above
    · rw [if_pos hab, if_pos hab]
      exact ih above (seg ++ [(t, v)]) pk tr
    · rw [if_neg hab, if_neg hab]
      cases seg with
      | nil => exact ih (decide (s < v)) [(t, v)] pk tr
      | cons a sg =>
        cases above with
        | true =>
          simpa [processPeakSegment_noise s m n n' d] using
            ih (decide (s < v)) [(t, v)] (pk ++ processPeakSegment ⟨s, m, n', d⟩ (a :: sg)) tr
        | false =>
          simpa [processTroughSegment_noise s m n n' d] using
            ih (decide (s < v)) [(t, v)] pk (tr ++ processTroughSegment ⟨s, m, n', d⟩ (a :: sg))

/-- Counterexample for C4 as stated: in the drift window every consecutive
delta is below `noise_filter`, yet the detector registers a peak. -/
theorem phC4_cex :
    allDeltasBelow cfgDrift.noise_filter histDrift = true ∧
      (detectOscillations cfgDrift histDrift).peaks ≠ [] := by
  constructor
  · norm_num [allDeltasBelow, histDrift, cfgDrift]
  · norm_num [detectOscillations, detectAux, processPeakSegment, processTroughSegment,
      pymaxBy, pyminBy, segDuration, matchOscillations, sortByTime, timeLE, mkOsc,
      cfgDrift, histDrift, List.filterMap_cons]

/-- C4 (amended): the windowed detector never evaluates the noise filter:
its output is independent of `noise_filter`, and a reading sequence whose
consecutive deltas all lie below `noise_filter` can still register peaks,
troughs and oscillations. -/
theorem phC4 :
    (∀ (cfg : Config) (nf : ℚ) (history : List Reading),
        detectOscillations { cfg with noise_filter := nf } history =
          detectOscillations cfg history) ∧
      allDeltasBelow cfgDrift.noise_filter histDrift = true ∧
      (detectOscillations cfgDrift histDrift).peaks ≠ [] ∧
      (detectOscillations cfgDrift histDrift).troughs ≠ [] ∧
      (detectOscillations cfgDrift histDrift).oscillations ≠ [] := by
  refine ⟨?_, ?_, ?_, ?_, ?_⟩
  · intro cfg nf history
    obtain ⟨s, m, n, d⟩ := cfg
    by_cases h5 : history.length < 5
    · simp [detectOscillations, h5]
    · simp [detectOscillations, h5, detectAux_noise s m nf n d]
  · norm_num [allDeltasBelow, histDrift, cfgDrift]
  · norm_num [detectOscillations, detectAux, processPeakSegment, processTroughSegment,
      pymaxBy, pyminBy, segDuration, matchOscillations, sortByTime, timeLE, mkOsc,
      cfgDrift, histDrift, List.filterMap_cons]
  · norm_num [detectOscillations, detectAux, processPeakSegment, processTroughSegment,
      pymaxBy, pyminBy, segDuration, matchOscillations, sortByTime, timeLE, mkOsc,
      cfgDrift, histDrift, List.filterMap_cons]
  · norm_num [detectOscillations, detectAux, processPeakSegment, processTroughSegment,
      pymaxBy, pyminBy, segDuration, matchOscillations, sortByTime, timeLE, mkOsc,
      cfgDrift, histDrift, List.filterMap_cons]

/-- The head of the time-filtered sorted trough list is exactly the
earliest trough strictly later than the peak, provided trough timestamps
are injective. -/
theorem head_filter_eq_iff (p : Reading) (troughs : List Reading)
    (hinj : ∀ t ∈ troughs, ∀ u ∈ troughs, t.1 = u.1 → t = u) (t : Reading) :
    ((sortByTime troughs).filter (fun u => decide (p.1 < u.1))).head? = some t ↔
      isEarliestLaterTrough troughs p t := by
  have hsorted : List.Sorted timeLE (sortByTime troughs) :=
    List.sorted_insertionSort timeLE troughs
  have hfsorted :
      List.Sorted timeLE ((sortByTime troughs).filter (fun u => decide (p.1 < u.1))) :=
    hsorted.filter _
  constructor
  · intro hh
    rcases hfl : (sortByTime troughs).filter (fun u => decide (p.1 < u.1)) with _ | ⟨h0, rest⟩
    · rw [hfl] at hh
      simp at hh
    · rw [hfl] at hh
      obtain rfl : t = h0 := by simpa using hh.symm
      have hmem : t ∈ (sortByTime troughs).filter (fun u => decide (p.1 < u.1)) := by
        rw [hfl]
        exact List.mem_cons_self _ _
      rw [List.mem_filter] at hmem
      obtain ⟨hmemS, hp⟩ := hmem
      refine ⟨by simpa [sortByTime] using hmemS, of_decide_eq_true hp, ?_⟩
      intro u hu hpu
      have huF : u ∈ (sortByTime troughs).filter (fun v => decide (p.1 < v.1)) := by
        rw [List.mem_filter]
        exact ⟨by simpa [sortByTime] using hu, decide_eq_true hpu⟩
      rw [hfl] at huF
      rcases List.mem_cons.mp huF with rfl | hur
      · exact le_refl _
      · rw [hfl] at hfsorted
        exact List.rel_of_sorted_cons hfsorted u hur
  · rintro ⟨hmemT, hlt, hmin⟩
    have htF : t ∈ (sortByTime troughs).filter (fun u => decide (p.1 < u.1)) := by
      rw [List.mem_filter]
      exact ⟨by simpa [sortByTime] using hmemT, decide_eq_true hlt⟩
    rcases hfl : (sortByTime troughs).filter (fun u => decide (p.1 < u.1)) with _ | ⟨h0, rest⟩
    · rw [hfl] at htF
      simp at htF
    · have h0F : h0 ∈ (sortByTime troughs).filter (fun u => decide (p.1 < u.1)) := by
        rw [hfl]
        exact List.mem_cons_self _ _
      rw [List.mem_filter] at h0F
      obtain ⟨h0S, h0p⟩ := h0F
      have h0T : h0 ∈ troughs := by simpa [sortByTime] using h0S
      have h1 : t.1 ≤ h0.1 := hmin h0 h0T (of_decide_eq_true h0p)
      have h2 : h0.1 ≤ t.1 := by
        rw [hfl] at htF
        rcases List.mem_cons.mp htF with rfl | htr
        · exact le_refl _
        · rw [hfl] at hfsorted
          exact List.rel_of_sorted_cons hfsorted t htr
      have h3 : h0 = t := hinj h0 h0T t hmemT (le_antisymm h2 h1)
      rw [hfl]
      simpa using h3

/-- C2: membership in the matched oscillation list is exactly: some peak,
paired with the unique earliest strictly later trough, with amplitude
`peak value − trough value` strictly above `min_amplitude` (in particular
the list is empty when there are no peaks or no troughs). -/
theorem phC2 (minAmp : ℚ) (peaks troughs : List Reading)
    (hinj : ∀ t ∈ troughs, ∀ u ∈ troughs, t.1 = u.1 → t = u) (o : Oscillation) :
    o ∈ matchOscillations minAmp peaks troughs ↔
      ∃ p ∈ peaks, ∃ t, isEarliestLaterTrough troughs p t ∧
        minAmp < p.2 - t.2 ∧ o = mkOsc p t := by
  match peaks, troughs with
  | [], _ =>
    simp [matchOscillations]
  | p0 :: ps, [] =>
    simp [matchOscillations, isEarliestLaterTrough]
  | p0 :: ps, t0 :: ts =>
    simp only [matchOscillations, List.mem_filterMap]
    constructor
    · rintro ⟨a, haS, hfa⟩
      have haP : a ∈ p0 :: ps := by simpa [sortByTime] using haS
      split at hfa
      · simp at hfa
      · rename_i nt hh
        split at hfa
        · rename_i hamp
          obtain rfl : mkOsc a nt = o := Option.some.inj hfa
          exact ⟨a, haP, nt, (head_filter_eq_iff a (t0 :: ts) hinj nt).mp hh, hamp, rfl⟩
        · simp at hfa
    · rintro ⟨p, hp, t, hear, hamp, rfl⟩
      refine ⟨p, by simpa [sortByTime] using hp, ?_⟩
      rw [(head_filter_eq_iff p (t0 :: ts) hinj t).mpr hear]
      simp [hamp]

/-- Witness for C2: the oscillation built from peak `(0, 8)` and the later
trough `(10, 6)` is recorded (amplitude 2 above the threshold 1). -/
theorem phC2_witness :
    mkOsc (0, 8) (10, 6) ∈ matchOscillations 1 [(0, 8)] [(10, 6)] := by
  have hinj : ∀ t ∈ [((10 : ℚ), (6 : ℚ))], ∀ u ∈ [((10 : ℚ), (6 : ℚ))],
      t.1 = u.1 → t = u := by
    intro t ht u hu _
    simp at ht hu
    rw [ht, hu]
  refine (phC2 1 [(0, 8)] [(10, 6)] hinj (mkOsc (0, 8) (10, 6))).mpr ?_
  refine ⟨(0, 8), by simp, (10, 6), ⟨by simp, by norm_num, ?_⟩, by norm_num, rfl⟩
  intro u hu _
  simp at hu
  rw [hu]

/-- The length of a `filterMap` counts the inputs on which the function
succeeds. -/
theorem length_filterMap_eq_countP {α β : Type} (f : α → Option β) (l : List α) :
    (l.filterMap f).length = l.countP (fun a => (f a).isSome) := by
  induction l with
  | nil => rfl
  | cons a l ih =>
    rcases hfa : f a with _ | b
    · simp [List.filterMap_cons, hfa, List.countP_cons, ih]
    · simp [List.filterMap_cons, hfa, List.countP_cons, ih]

/-- C9: matching never consumes a trough: the oscillation count is exactly
the number of peaks whose earliest strictly later trough exists and clears
the amplitude threshold, and one trough can serve several peaks (here the
single trough at time 10 appears in both recorded oscillations, so the
count exceeds the number of disjoint peak–trough pairs). -/
theorem phC9 :
    (∀ (minAmp : ℚ) (peaks troughs : List Reading),
        (matchOscillations minAmp peaks troughs).length =
          peaks.countP (peakAccept minAmp troughs)) ∧
      matchOscillations 1 [(0, 9), (5, 8)] [(10, 6)] =
        [mkOsc (0, 9) (10, 6), mkOsc (5, 8) (10, 6)] ∧
      (mkOsc (0, 9) (10, 6)).trough_time = (mkOsc (5, 8) (10, 6)).trough_time := by
  refine ⟨?_, ?_, rfl⟩
  · intro minAmp peaks troughs
    match peaks, troughs with
    | [], _ => simp [matchOscillations]
    | p0 :: ps, [] =>
      have hz : ∀ a ∈ p0 :: ps, ¬(peakAccept minAmp [] a = true) := by
        intro a _
        simp [peakAccept, sortByTime]
      simp only [matchOscillations, List.length_nil]
      exact (List.countP_eq_zero.mpr hz).symm
    | p0 :: ps, t0 :: ts =>
      simp only [matchOscillations]
      rw [length_filterMap_eq_countP]
      refine List.Perm.countP_congr (List.perm_insertionSort timeLE (p0 :: ps)) ?_
      intro a _
      rcases hh : ((sortByTime (t0 :: ts)).filter (fun u => decide (a.1 < u.1))).head? with
        _ | nt
      · simp [peakAccept, hh]
      · simp only [peakAccept, hh]
        split <;> rename_i hc
        · simp [hc]
        · simp [hc]
  · norm_num [matchOscillations, sortByTime, timeLE, mkOsc, List.filterMap_cons]

/-- The trend/status block agrees with the spec classifier on the mapped
amplitude list whenever there are at least 2 recent oscillations with
positive amplitudes (then the first-half average is positive, so the
source's `first_avg > 0` guard and the spec's `first_avg == 0` guard pick
the same branch). -/
theorem trendPair_eq_spec (recent : List Oscillation) (h1 : 1 < recent.length)
    (hpos : ∀ o ∈ recent, 0 < o.amplitude) :
    trendPair recent = specTrendStatus (recent.map (fun o => o.amplitude)) := by
  have h2 : 2 ≤ recent.length := h1
  have hk : 1 ≤ recent.length / 2 := by omega
  have hkle : recent.length / 2 ≤ recent.length := by omega
  have hfh_len : (recent.take (recent.length / 2)).length = recent.length / 2 := by
    rw [List.length_take]
    omega
  have hfh_ne : recent.take (recent.length / 2) ≠ [] := by
    intro h
    rw [h] at hfh_len
    simp at hfh_len
    omega
  have hpos' : ∀ x ∈ (recent.take (recent.length / 2)).map (fun o => o.amplitude), 0 < x := by
    intro x hx
    rw [List.mem_map] at hx
    obtain ⟨o, ho, rfl⟩ := hx
    exact hpos o (List.mem_of_mem_take ho)
  have hsum : 0 < ((recent.take (recent.length / 2)).map (fun o => o.amplitude)).sum :=
    List.sum_pos _ hpos' (by simpa using hfh_ne)
  have hlenpos : (0 : ℚ) < ((recent.take (recent.length / 2)).length : ℚ) := by
    rw [hfh_len]
    exact_mod_cast hk
  have havg : 0 < ((recent.take (recent.length / 2)).map (fun o => o.amplitude)).sum /
      (((recent.take (recent.length / 2)).length : ℚ)) := div_pos hsum hlenpos
  simp only [trendPair, specTrendStatus, List.length_map, ← List.map_take, ← List.map_drop,
    if_pos h1]
  rw [if_pos havg, if_neg (ne_of_gt havg)]

/-- C3: with at least 2 positive-amplitude oscillations in the horizon, the
trend and status attributes computed by `_calculate_metrics` coincide with
the spec classifier (midpoint split, percent change with zero guard,
ordered threshold checks) applied to the chronologically ordered amplitude
list of the recent oscillations. -/
theorem phC3 (now : ℚ) (oscs : List Oscillation)
    (hpos : ∀ o ∈ oscs, 0 < o.amplitude)
    (hlen : 2 ≤ (recentOf now oscs).length) :
    ((calculateMetrics now oscs).trend, (calculateMetrics now oscs).status) =
      specTrendStatus ((recentOf now oscs).map (fun o => o.amplitude)) := by
  rcases hr : recentOf now oscs with _ | ⟨a, l⟩
  · have h0 : 2 ≤ ([] : List Oscillation).length := hr ▸ hlen
    simp at h0
  · have hposr : ∀ o ∈ a :: l, 0 < o.amplitude := by
      intro o ho
      apply hpos
      have hmem : o ∈ recentOf now oscs := by rw [hr]; exact ho
      exact List.mem_of_mem_filter hmem
    have h1 : 1 < (a :: l).length := hr ▸ hlen
    have hts := trendPair_eq_spec (a :: l) h1 hposr
    simp [calculateMetrics, hr, hts]

/-- Witness for C3: six oscillations with amplitude list [1, 1, 1, 3, 3, 3]
classify as trend `rapidly_increasing`, status `low`. -/
theorem phC3_witness :
    (calculateMetrics 0 sixOscs).trend = "rapidly_increasing" ∧
      (calculateMetrics 0 sixOscs).status = "low" := by
  have hpos : ∀ o ∈ sixOscs, 0 < o.amplitude := by decide
  have hlen : 2 ≤ (recentOf 0 sixOscs).length := by norm_num [recentOf, sixOscs]
  have h := phC3 0 sixOscs hpos hlen
  have hspec : specTrendStatus ((recentOf 0 sixOscs).map (fun o => o.amplitude)) =
      ("rapidly_increasing", "low") := by norm_num [recentOf, sixOscs, specTrendStatus]
  rw [hspec] at h
  exact ⟨congrArg Prod.fst h, congrArg Prod.snd h⟩

/-- Counterexample for C6 as stated: a window whose only extrema are an
accepted trough at time 0 strictly before an accepted peak at time 20
records no oscillation at all (matching only pairs peaks with later
troughs). -/
theorem phC6_cex :
    (detectOscillations cfgBasic histTroughFirst).troughs = [(0, 5)] ∧
      (detectOscillations cfgBasic histTroughFirst).peaks = [(20, 9)] ∧
      ((0 : ℚ) < 20) ∧
      (detectOscillations cfgBasic histTroughFirst).oscillations = [] := by
  refine ⟨?_, ?_, by norm_num, ?_⟩ <;>
    norm_num [detectOscillations, detectAux, processPeakSegment, processTroughSegment,
      pymaxBy, pyminBy, segDuration, matchOscillations, sortByTime, timeLE, mkOsc,
      cfgBasic, histTroughFirst]

/-- C6 (amended): every recorded oscillation is of the single kind peak
followed by a strictly later trough, with `amplitude = peak value − trough
value` and `duration = trough timestamp − peak timestamp`; a window with an
accepted trough strictly before an accepted peak (and no other extrema)
records no oscillation. -/
theorem phC6 :
    (∀ (minAmp : ℚ) (pk tr : List Reading) (o : Oscillation),
        o ∈ matchOscillations minAmp pk tr →
          o.peak_time < o.trough_time ∧
            o.amplitude = o.peak_value - o.trough_value ∧
            o.duration = o.trough_time - o.peak_time) ∧
      (detectOscillations cfgBasic histTroughFirst).oscillations = [] := by
  constructor
  · intro minAmp pk tr o h
    match pk, tr with
    | [], _ => simp [matchOscillations] at h
    | _ :: _, [] => simp [matchOscillations] at h
    | p0 :: ps, t0 :: ts =>
      simp only [matchOscillations, List.mem_filterMap] at h
      obtain ⟨a, -, hfa⟩ := h
      split at hfa
      · simp at hfa
      · rename_i nt hh
        split at hfa
        · have hnt : nt ∈ (sortByTime (t0 :: ts)).filter (fun u => decide (a.1 < u.1)) :=
            List.mem_of_mem_head? (Option.mem_def.mpr hh)
          rw [List.mem_filter] at hnt
          have hlt : a.1 < nt.1 := of_decide_eq_true hnt.2
          cases Option.some.inj hfa
          exact ⟨hlt, rfl, rfl⟩
        · simp at hfa
  · norm_num [detectOscillations, detectAux, processPeakSegment, processTroughSegment,
      pymaxBy, pyminBy, segDuration, matchOscillations, sortByTime, timeLE, mkOsc,
      cfgBasic, histTroughFirst]

/-- Witness for C6: the recorded oscillation of the peak-then-trough window
has its peak strictly before its trough and the stated amplitude and
duration identities. -/
theorem phC6_witness :
    (mkOsc (0, 9) (20, 5)).peak_time < (mkOsc (0, 9) (20, 5)).trough_time ∧
      (mkOsc (0, 9) (20, 5)).amplitude =
        (mkOsc (0, 9) (20, 5)).peak_value - (mkOsc (0, 9) (20, 5)).trough_value ∧
      (mkOsc (0, 9) (20, 5)).duration =
        (mkOsc (0, 9) (20, 5)).trough_time - (mkOsc (0, 9) (20, 5)).peak_time := by
  have hm : mkOsc (0, 9) (20, 5) ∈ matchOscillations 1 [(0, 9)] [(20, 5)] := by
    norm_num [matchOscillations, sortByTime, timeLE, mkOsc, List.filterMap_cons]
  exact phC6.1 1 [(0, 9)] [(20, 5)] (mkOsc (0, 9) (20, 5)) hm

/-- Per-chunk equivalence: the loop's peak contribution of one segment
equals the amended spec acceptance rule. -/
theorem chunk_peak_eq (cfg : Config) (c : List Reading) :
    (if sideOf cfg.setpoint c = true then processPeakSegment cfg c else []) =
      (specPeakOf cfg c).toList := by
  simp only [processPeakSegment, specPeakOf]
  by_cases hs : sideOf cfg.setpoint c = true
  · rw [if_pos hs]
    by_cases hl : c.length < 2
    · rw [if_pos hl, if_neg]
      · rfl
      · rintro ⟨-, h2, -, -⟩
        omega
    · rw [if_neg hl]
      by_cases ha : cfg.min_amplitude < (pymaxBy c).2 - cfg.setpoint
      · rw [if_pos ha]
        by_cases hd : cfg.min_duration ≤ segDuration c
        · rw [if_pos hd, if_pos ⟨hs, by omega, ha, hd⟩]
          rfl
        · rw [if_neg hd, if_neg]
          · rfl
          · rintro ⟨-, -, -, h⟩
            exact hd h
      · rw [if_neg ha, if_neg]
        · rfl
        · rintro ⟨-, -, h, -⟩
          exact ha h
  · rw [if_neg hs, if_neg]
    · rfl
    · rintro ⟨h, -⟩
      exact hs h

/-- Per-chunk equivalence for troughs. -/
theorem chunk_trough_eq (cfg : Config) (c : List Reading) :
    (if sideOf cfg.setpoint c = false then processTroughSegment cfg c else []) =
      (specTroughOf cfg c).toList := by
  simp only [processTroughSegment, specTroughOf]
  by_cases hs : sideOf cfg.setpoint c = false
  · rw [if_pos hs]
    by_cases hl : c.length < 2
    · rw [if_pos hl, if_neg]
      · rfl
      · rintro ⟨-, h2, -, -⟩
        omega
    · rw [if_neg hl]
      by_cases ha : cfg.min_amplitude < cfg.setpoint - (pyminBy c).2
      · rw [if_pos ha]
        by_cases hd : cfg.min_duration ≤ segDuration c
        · rw [if_pos hd, if_pos ⟨hs, by omega, ha, hd⟩]
          rfl
        · rw [if_neg hd, if_neg]
          · rfl
          · rintro ⟨-, -, -, h⟩
            exact hd h
      · rw [if_neg ha, if_neg]
        · rfl
        · rintro ⟨-, -, h, -⟩
          exact ha h
  · rw [if_neg hs, if_neg]
    · rfl
    · rintro ⟨h, -⟩
      exact hs h

/-- The loop's chunk-wise peak list is the `filterMap` of the amended spec
rule. -/
theorem peaksOfChunks_eq_filterMap (cfg : Config) :
    ∀ L : List (List Reading), peaksOfChunks cfg L = L.filterMap (specPeakOf cfg) := by
  intro L
  induction L with
  | nil => rfl
  | cons c L ih =>
    rw [List.filterMap_cons]
    have hc := chunk_peak_eq cfg c
    rcases hx : specPeakOf cfg c with _ | x
    · rw [hx] at hc
      simp only [peaksOfChunks, hc, Option.toList, List.nil_append]
      exact ih
    · rw [hx] at hc
      simp only [peaksOfChunks, hc, Option.toList, List.singleton_append]
      rw [ih]

/-- The loop's chunk-wise trough list is the `filterMap` of the amended spec
rule. -/
theorem troughsOfChunks_eq_filterMap (cfg : Config) :
    ∀ L : List (List Reading), troughsOfChunks cfg L = L.filterMap (specTroughOf cfg) := by
  intro L
  induction L with
  | nil => rfl
  | cons c L ih =>
    rw [List.filterMap_cons]
    have hc := chunk_trough_eq cfg c
    rcases hx : specTroughOf cfg c with _ | x
    · rw [hx] at hc
      simp only [troughsOfChunks, hc, Option.toList, List.nil_append]
      exact ih
    · rw [hx] at hc
      simp only [troughsOfChunks, hc, Option.toList, List.singleton_append]
      rw [ih]

/-- Main loop invariant: running the detection loop on the remaining
readings with a nonempty homogeneous current segment appends exactly the
chunk-wise extrema of the maximal-run decomposition. -/
theorem detectAux_eq_chunks (cfg : Config) :
    ∀ (l : List Reading) (above : Bool) (seg pk tr : List Reading),
      seg ≠ [] → (∀ x ∈ seg, decide (cfg.setpoint < x.2) = above) →
      detectAux cfg l above seg pk tr =
        (pk ++ peaksOfChunks cfg (chunksAux cfg.setpoint l above seg),
         tr ++ troughsOfChunks cfg (chunksAux cfg.setpoint l above seg)) := by
  intro l
  induction l with
  | nil =>
    intro above seg pk tr hne hhom
    match seg, hne with
    | s0 :: ss, _ =>
      have hside : sideOf cfg.setpoint (s0 :: ss) = above := by
        simpa [sideOf] using hhom s0 (List.mem_cons_self s0 ss)
      cases above with
      | true => simp [detectAux, chunksAux, peaksOfChunks, troughsOfChunks, hside]
      | false => simp [detectAux, chunksAux, peaksOfChunks, troughsOfChunks, hside]
  | cons x rest ih =>
    intro above seg pk tr hne hhom
    obtain ⟨t, v⟩ := x
    by_cases hab : decide (cfg.setpoint < v) = above
    · have hhom' : ∀ y ∈ seg ++ [(t, v)], decide (cfg.setpoint < y.2) = above := by
        intro y hy
        rcases List.mem_append.mp hy with h | h
        · exact hhom y h
        · simp at h
          subst h
          exact hab
      have hstep : detectAux cfg ((t, v) :: rest) above seg pk tr =
          detectAux cfg rest above (seg ++ [(t, v)]) pk tr := by
        simp [detectAux, hab]
      have hchunk : chunksAux cfg.setpoint ((t, v) :: rest) above seg =
          chunksAux cfg.setpoint rest above (seg ++ [(t, v)]) := by
        simp [chunksAux, hab]
      rw [hstep, hchunk]
      exact ih above (seg ++ [(t, v)]) pk tr (by simp) hhom'
    · match seg, hne with
      | s0 :: ss, _ =>
        have hside : sideOf cfg.setpoint (s0 :: ss) = above := by
          simpa [sideOf] using hhom s0 (List.mem_cons_self s0 ss)
        have hhom' : ∀ y ∈ [(t, v)], decide (cfg.setpoint < y.2) = decide (cfg.setpoint < v) := by
          intro y hy
          simp at hy
          subst hy
          rfl
        have hchunk : chunksAux cfg.setpoint ((t, v) :: rest) above (s0 :: ss) =
            (s0 :: ss) :: chunksAux cfg.setpoint rest (decide (cfg.setpoint < v)) [(t, v)] := by
          simp [chunksAux, hab]
        cases above with
        | true =>
          have hstep : detectAux cfg ((t, v) :: rest) true (s0 :: ss) pk tr =
              detectAux cfg rest (decide (cfg.setpoint < v)) [(t, v)]
                (pk ++ processPeakSegment cfg (s0 :: ss)) tr := by
            simp [detectAux, hab]
          rw [hstep, hchunk,
            ih (decide (cfg.setpoint < v)) [(t, v)]
              (pk ++ processPeakSegment cfg (s0 :: ss)) tr (by simp) hhom']
          simp [peaksOfChunks, troughsOfChunks, hside]
        | false =>
          have hstep : detectAux cfg ((t, v) :: rest) false (s0 :: ss) pk tr =
              detectAux cfg rest (decide (cfg.setpoint < v)) [(t, v)] pk
                (tr ++ processTroughSegment cfg (s0 :: ss)) := by
            simp [detectAux, hab]
          rw [hstep, hchunk,
            ih (decide (cfg.setpoint < v)) [(t, v)] pk
              (tr ++ processTroughSegment cfg (s0 :: ss)) (by simp) hhom']
          simp [peaksOfChunks, troughsOfChunks, hside]

/-- C1 (amended): for windows of at least 5 readings, the recorded peaks
(troughs) are exactly the maxima (minima) of the above (below) segments of
the partition that have at least two readings, clear the amplitude
threshold strictly, and last at least `min_duration` (for positive
`min_duration` the two-reading requirement is subsumed, since a one-reading
segment has zero duration). -/
theorem phC1 (cfg : Config) (history : List Reading) (h5 : 5 ≤ history.length) :
    (detectOscillations cfg history).peaks = specPeaks cfg history ∧
      (detectOscillations cfg history).troughs = specTroughs cfg history := by
  match history with
  | [] => simp at h5
  | (t, v) :: rest =>
    have hlt : ¬(rest.length + 1 < 5) := by
      simp only [List.length_cons] at h5
      omega
    have hstep : detectAux cfg ((t, v) :: rest) (decide (cfg.setpoint < v)) [] [] [] =
        detectAux cfg rest (decide (cfg.setpoint < v)) [(t, v)] [] [] := by
      simp [detectAux]
    have hmain := detectAux_eq_chunks cfg rest (decide (cfg.setpoint < v)) [(t, v)] [] []
      (by simp) (by intro y hy; simp at hy; subst hy; rfl)
    have hpt : detectAux cfg ((t, v) :: rest) (decide (cfg.setpoint < v)) [] [] [] =
        (peaksOfChunks cfg (chunks cfg.setpoint ((t, v) :: rest)),
         troughsOfChunks cfg (chunks cfg.setpoint ((t, v) :: rest))) := by
      rw [hstep, hmain]
      simp [chunks]
    constructor
    · simp [detectOscillations, hlt, hpt, specPeaks, peaksOfChunks_eq_filterMap]
    · simp [detectOscillations, hlt, hpt, specTroughs, troughsOfChunks_eq_filterMap]

/-- Counterexample for C1 as stated: with `min_duration = 0` the one-reading
above segment `[(0, 8)]` satisfies the claim's amplitude and duration
conditions (its maximum is 1 above the setpoint and its duration 0 is at
least 0), yet the code records no peak because of its `len(segment) < 2`
guard. -/
theorem phC1_cex :
    specPeaksNaive cfgZeroDur histSingleton = [(0, 8)] ∧
      (detectOscillations cfgZeroDur histSingleton).peaks = [] ∧
      specPeaksNaive cfgZeroDur histSingleton ≠
        (detectOscillations cfgZeroDur histSingleton).peaks := by
  refine ⟨?_, ?_, ?_⟩
  · norm_num [specPeaksNaive, specPeakOfNaive, chunks, chunksAux, sideOf, pymaxBy,
      segDuration, cfgZeroDur, histSingleton, List.filterMap_cons]
  · norm_num [detectOscillations, detectAux, processPeakSegment, processTroughSegment,
      pymaxBy, pyminBy, segDuration, matchOscillations, cfgZeroDur, histSingleton]
  · norm_num [specPeaksNaive, specPeakOfNaive, chunks, chunksAux, sideOf, pymaxBy,
      segDuration, detectOscillations, detectAux, processPeakSegment,
      processTroughSegment, pyminBy, matchOscillations, cfgZeroDur, histSingleton,
      List.filterMap_cons]

/-- Witness for C1: on the peak-then-trough window the detector's peak and
trough lists coincide with the amended spec lists, both nonempty. -/
theorem phC1_witness :
    5 ≤ histPeakFirst.length ∧
      (detectOscillations cfgBasic histPeakFirst).peaks = specPeaks cfgBasic histPeakFirst ∧
      (detectOscillations cfgBasic histPeakFirst).troughs = specTroughs cfgBasic histPeakFirst ∧
      specPeaks cfgBasic histPeakFirst = [(0, 9)] := by
  have h5 : 5 ≤ histPeakFirst.length := by norm_num [histPeakFirst]
  have h := phC1 cfgBasic histPeakFirst h5
  refine ⟨h5, h.1, h.2, ?_⟩
  norm_num [specPeaks, specPeakOf, chunks, chunksAux, sideOf, pymaxBy,
    segDuration, cfgBasic, histPeakFirst, List.filterMap_cons]

end PhControl
